import Mathlib

/-!
Shallow embedding of `src/trailmark.py` (a GPX trail annotator).

Modelling conventions:
* Coordinates, distances and elevations are exact rationals (`ℚ`); the
  Python source computes in double floats, but every claim under study is
  about the exact arithmetic structure of the algorithms, which the spec
  itself states in millimeter-scale integer terms.
* The geodesic collaborator (`pyproj.Geod.inv`) is an injected function
  `geod : Point → Point → ℚ` returning the pairwise surface distance in
  meters; the source uses only this distance component.
* Python exceptions become an explicit error type `Err`; the broad
  `except Exception` wrappers in the source change only the message, not
  the kind of control flow, so each raise site maps to one `Err` value.
* `generate_waypoints` mutates the document (track name and comment); the
  embedding threads the document state explicitly, returning the possibly
  mutated document next to the result.
* The telemetry comment string is modelled as its structured content
  (`Telemetry`); the `:.2f`-style text rendering is presentation only.
-/

/-- One recorded trail position (gpxpy GPXTrackPoint): latitude, longitude
in degrees, elevation in meters, absent when the source lacks it. -/
structure Point where
  lat : ℚ
  lon : ℚ
  elevation : Option ℚ
deriving DecidableEq, Repr

/-- One track segment: an ordered list of points. -/
structure Segment where
  points : List Point
deriving DecidableEq, Repr

/-- Telemetry aggregates written into the track comment by
`generate_waypoints` (the formatted multi-line string in the source). -/
structure Telemetry where
  totalDistance : ℚ
  numPoints : ℕ
  ascent : ℚ
  descent : ℚ
  minAltitude : ℚ
  maxAltitude : ℚ
deriving DecidableEq, Repr

/-- A GPX track: display name, comment (telemetry block) and segments. -/
structure Track where
  name : Option String
  comment : Option Telemetry
  segments : List Segment
deriving DecidableEq, Repr

/-- A loaded GPX document: its ordered list of tracks. -/
structure GPX where
  tracks : List Track
deriving DecidableEq, Repr

/-- Error kinds corresponding to the raise sites in the source:
`noTrackData` for "No valid track data found", `emptyTrack` for
"No points found in the track." / "No track points available.",
`noElevationData` for "No valid elevation data found.", and
`runtimeError` for the broad RuntimeError wrappers. -/
inductive Err where
  | noTrackData
  | emptyTrack
  | noElevationData
  | runtimeError
deriving DecidableEq, Repr

/-- Loop body of `calculate_distance` (lines 52-62): walking the points
after the first, accumulating `geod` distance converted from meters to km,
and collecting the running total after each step.  Returns the final
total together with the list of running totals (one per consumed point). -/
def distLoop (geod : Point → Point → ℚ) : Point → ℚ → List Point → ℚ × List ℚ
  | _, total, [] => (total, [])
  | prev, total, p :: ps =>
    let t := total + geod prev p / 1000
    let r := distLoop geod p t ps
    (r.1, t :: r.2)

/-- Embedding of `calculate_distance` (src/trailmark.py lines 38-66):
fails on an empty point list, otherwise returns the total distance in km
and the cumulative distance list starting at 0. -/
def calculate_distance (geod : Point → Point → ℚ) :
    List Point → Except Err (ℚ × List ℚ)
  | [] => .error .emptyTrack
  | p :: ps =>
    let r := distLoop geod p 0 ps
    .ok (r.1, 0 :: r.2)

/-- Python `max(xs, key=f)` over `x :: xs`: scans left to right, replacing
the current best only when the new key is strictly greater, so the first
occurrence of the maximal key wins. -/
def pyMaxBy (f : Point → ℚ) (x : Point) : List Point → Point
  | [] => x
  | y :: ys => pyMaxBy f (if f x < f y then y else x) ys

/-- Python `min(xs, key=f)` over `x :: xs`: replaces the current best only
when the new key is strictly smaller, so the first occurrence of the
minimal key wins. -/
def pyMinBy (f : Point → ℚ) (x : Point) : List Point → Point
  | [] => x
  | y :: ys => pyMinBy f (if f y < f x then y else x) ys

/-- Elevation of a point, defaulting to 0; used as the sort key.  In the
source the key `lambda p: p.elevation` is only applied to points whose
elevation is present, where this equals the true elevation. -/
def elevD (p : Point) : ℚ := p.elevation.getD 0

/-- Embedding of `find_extreme_points` (lines 69-89): filters the points
carrying elevation, fails when none does, otherwise returns the Python
max and min of the valid points keyed by elevation. -/
def find_extreme_points (pts : List Point) : Except Err (Point × Point) :=
  match pts.filter (fun p => p.elevation.isSome) with
  | [] => .error .noElevationData
  | v :: vs => .ok (pyMaxBy elevD v vs, pyMinBy elevD v vs)

/-- Index of the first list entry satisfying the predicate, as the
`for i, distance in enumerate(distances): if ...: break` scans do. -/
def scanFirst (p : ℚ → Bool) : List ℚ → Option ℕ
  | [] => none
  | d :: rest => if p d then some 0 else (scanFirst p rest).map (· + 1)

/-- Embedding of `find_halfway_point` (lines 92-114): fails on an empty
point list, else returns the point at the first index whose cumulative
distance reaches half the total; the fallback returns the last point.
An index beyond the point list would be an IndexError in the source,
wrapped into a RuntimeError. -/
def find_halfway_point (pts : List Point) (ds : List ℚ) (total : ℚ) :
    Except Err Point :=
  if h : pts = [] then .error .emptyTrack
  else
    match scanFirst (fun d => decide (total / 2 ≤ d)) ds with
    | some i =>
      match pts[i]? with
      | some p => .ok p
      | none => .error .runtimeError
    | none => .ok (pts.getLast h)

/-- Python `int()` truncation toward zero on a rational. -/
def pyInt (q : ℚ) : ℤ := if q < 0 then -⌊-q⌋ else ⌊q⌋

/-- Number of kilometer markers generated by
`range(1000, int(total_distance * 1000) + 1, 1000)`:
the count of positive multiples of 1000 that are at most
`int(total_distance * 1000)`. -/
def kmCount (total : ℚ) : ℕ := (pyInt (total * 1000)).toNat / 1000

/-- Decimal digit to its character. -/
def digitChar (d : ℕ) : Char :=
  match d with
  | 0 => '0' | 1 => '1' | 2 => '2' | 3 => '3' | 4 => '4'
  | 5 => '5' | 6 => '6' | 7 => '7' | 8 => '8' | 9 => '9'
  | _ => '*'

/-- Decimal rendering of a natural number as Python's `f"{n}"` writes it:
most significant digit first, and "0" for zero. -/
def natDecimal (n : ℕ) : List Char :=
  if n = 0 then ['0'] else ((Nat.digits 10 n).reverse).map digitChar

/-- Decimal rendering as a string. -/
def natRepr (n : ℕ) : String := String.mk (natDecimal n)

/-- Label of the k-th kilometer marker, from
`f"{prefix}_KM{dist_marker // 1000}"`. -/
def kmLabel (pfx : String) (k : ℕ) : String := pfx ++ "_KM" ++ natRepr k

/-- Kilometer-marker section of `generate_waypoints` (lines 144-149):
for each integer kilometer boundary produced by the millimeter-scale
range, bind the marker to the point at the first index whose cumulative
distance (km, scaled to meters in the comparison) reaches the boundary;
a boundary no point reaches appends nothing (inner loop never fires). -/
def kmMarkers (pfx : String) (pts : List Point) (ds : List ℚ) (total : ℚ) :
    List (String × Point) :=
  (List.range' 1 (kmCount total)).filterMap (fun (k : ℕ) =>
    match scanFirst (fun d => decide ((k : ℚ) * 1000 ≤ d * 1000)) ds with
    | some i => (pts[i]?).map (fun p => (kmLabel pfx k, p))
    | none => none)

/-- Consecutive pairs `(points[i-1], points[i])` for `i` in `1..len-1`. -/
def consecPairs (pts : List Point) : List (Point × Point) := pts.zip pts.tail

/-- Total ascent (line 160): sum of positive elevation gains over the
consecutive pairs whose two elevations are both present. -/
def ascent (pts : List Point) : ℚ :=
  (((consecPairs pts).filter
      (fun pq => pq.1.elevation.isSome && pq.2.elevation.isSome)).map
    (fun pq => max 0 (pq.2.elevation.getD 0 - pq.1.elevation.getD 0))).sum

/-- Total descent (line 161): sum of positive elevation drops over the
consecutive pairs whose two elevations are both present. -/
def descent (pts : List Point) : ℚ :=
  (((consecPairs pts).filter
      (fun pq => pq.1.elevation.isSome && pq.2.elevation.isSome)).map
    (fun pq => max 0 (pq.1.elevation.getD 0 - pq.2.elevation.getD 0))).sum

/-- Minimum over a list of rationals, `None` when empty, as Python
`min(..., default=None)`. -/
def optMin : List ℚ → Option ℚ
  | [] => none
  | d :: rest =>
    match optMin rest with
    | none => some d
    | some m => some (min d m)

/-- Maximum over a list of rationals, `None` when empty, as Python
`max(..., default=None)`. -/
def optMax : List ℚ → Option ℚ
  | [] => none
  | d :: rest =>
    match optMax rest with
    | none => some d
    | some m => some (max d m)

/-- Embedding of `generate_waypoints` (lines 117-182).  Returns the
waypoint list (or the error) together with the resulting document: the
source renames the first track to the prefix (line 132) before checking
the point list, computes distances, emits trailhead/trail-end, kilometer
markers, extreme-elevation and halfway waypoints in that order, then
writes the telemetry block into the track comment. -/
def generate_waypoints (geod : Point → Point → ℚ) (gpx : GPX) (pfx : String) :
    Except Err (List (String × Point)) × GPX :=
  match gpx.tracks with
  | [] => (.error .noTrackData, gpx)
  | track :: rest =>
    match track.segments with
    | [] => (.error .noTrackData, gpx)
    | seg :: _ =>
      let track1 := { track with name := some pfx }
      let gpx1 : GPX := ⟨track1 :: rest⟩
      let pts := seg.points
      if hpts : pts = [] then (.error .emptyTrack, gpx1)
      else
        match calculate_distance geod pts with
        | .error e => (.error e, gpx1)
        | .ok (total, ds) =>
          let wps := (pfx ++ "_TH", pts.head hpts) ::
            (pfx ++ "_TE", pts.getLast hpts) :: kmMarkers pfx pts ds total
          match find_extreme_points pts with
          | .error e => (.error e, gpx1)
          | .ok (highest, lowest) =>
            let wps := wps ++ [(pfx ++ "_HGH", highest), (pfx ++ "_LWT", lowest)]
            match find_halfway_point pts ds total with
            | .error e => (.error e, gpx1)
            | .ok half =>
              let wps := wps ++ [(pfx ++ "_HLF", half)]
              match optMin (pts.filterMap (fun p => p.elevation)),
                    optMax (pts.filterMap (fun p => p.elevation)) with
              | some mn, some mx =>
                let tel : Telemetry :=
                  ⟨total, pts.length, ascent pts, descent pts, mn, mx⟩
                (.ok wps, ⟨{ track1 with comment := some tel } :: rest⟩)
              | _, _ => (.error .noElevationData, gpx1)

/-! ### Lemmas about the distance accumulator -/

lemma distLoop_length (geod : Point → Point → ℚ) :
    ∀ (ps : List Point) (prev : Point) (t : ℚ),
      ((distLoop geod prev t ps).2).length = ps.length
  | [], _, _ => rfl
  | p :: ps, prev, t => by
    simp [distLoop, distLoop_length geod ps p]

lemma distLoop_getLastD (geod : Point → Point → ℚ) :
    ∀ (ps : List Point) (prev : Point) (t : ℚ),
      ((distLoop geod prev t ps).2).getLastD t = (distLoop geod prev t ps).1
  | [], _, _ => rfl
  | p :: ps, prev, t => by
    simp only [distLoop, List.getLastD_cons]
    exact distLoop_getLastD geod ps p (t + geod prev p / 1000)

lemma distLoop_chain (geod : Point → Point → ℚ)
    (hg : ∀ a b, 0 ≤ geod a b) :
    ∀ (ps : List Point) (prev : Point) (t : ℚ),
      List.Chain (· ≤ ·) t (distLoop geod prev t ps).2
  | [], _, _ => List.Chain.nil
  | p :: ps, prev, t => by
    simp only [distLoop]
    refine List.Chain.cons ?_ (distLoop_chain geod hg ps p _)
    have := hg prev p
    linarith

lemma getLast?_cons_getLastD (a : ℚ) (l : List ℚ) :
    (a :: l).getLast? = some (l.getLastD a) := by
  induction l generalizing a with
  | nil => rfl
  | cons b l ih => rw [List.getLastD_cons]; exact ih b

lemma calculate_distance_ok (geod : Point → Point → ℚ) (p : Point)
    (ps : List Point) :
    calculate_distance geod (p :: ps) =
      .ok ((distLoop geod p 0 ps).1, 0 :: (distLoop geod p 0 ps).2) := by
  simp [calculate_distance]

/-- Unfolding of `generate_waypoints` on a document whose first segment is
empty: the error is raised only after the first track has been renamed. -/
lemma generate_waypoints_empty_case (geod : Point → Point → ℚ)
    (tr : Track) (rest : List Track) (seg : Segment) (srest : List Segment)
    (pfx : String) (h2 : tr.segments = seg :: srest) (h3 : seg.points = []) :
    generate_waypoints geod ⟨tr :: rest⟩ pfx =
      (.error .emptyTrack, ⟨{ tr with name := some pfx } :: rest⟩) := by
  simp [generate_waypoints, h2, h3]

/-- Sample geodesic collaborator: every hop is 1200 meters. -/
def sampleGeod : Point → Point → ℚ := fun _ _ => 1200

/-- Sample three-point track with elevations 0, 10, 5. -/
def samplePts : List Point := [⟨0, 0, some 0⟩, ⟨0, 1, some 10⟩, ⟨0, 2, some 5⟩]

/-- C2: for every non-empty point sequence, the last entry of the
cumulative-distance sequence returned by `calculate_distance` equals the
returned total distance, exactly. -/
theorem calculate_distance_total_eq_last (geod : Point → Point → ℚ)
    (pts : List Point) (total : ℚ) (ds : List ℚ)
    (h : calculate_distance geod pts = .ok (total, ds)) :
    ds.getLast? = some total := by
  cases pts with
  | nil => simp [calculate_distance] at h
  | cons p ps =>
    simp only [calculate_distance, Except.ok.injEq, Prod.mk.injEq] at h
    obtain ⟨h1, h2⟩ := h
    rw [← h1, ← h2, getLast?_cons_getLastD, distLoop_getLastD]

/-- Witness for C2 on the sample track. -/
theorem calculate_distance_total_eq_last_witness :
    ([0, 6/5, (12 : ℚ)/5] : List ℚ).getLast? = some (12/5) :=
  calculate_distance_total_eq_last sampleGeod samplePts (12/5) [0, 6/5, 12/5]
    (by norm_num [calculate_distance, distLoop, samplePts, sampleGeod])

/-- C3: the cumulative-distance sequence has the same length as the input,
starts at exactly 0, and is non-decreasing whenever the geodesic
collaborator returns only non-negative distances. -/
theorem calculate_distance_shape (geod : Point → Point → ℚ)
    (pts : List Point) (total : ℚ) (ds : List ℚ)
    (h : calculate_distance geod pts = .ok (total, ds)) :
    ds.length = pts.length ∧ ds.head? = some 0 ∧
      ((∀ a b, 0 ≤ geod a b) → List.Pairwise (· ≤ ·) ds) := by
  cases pts with
  | nil => simp [calculate_distance] at h
  | cons p ps =>
    simp only [calculate_distance, Except.ok.injEq, Prod.mk.injEq] at h
    obtain ⟨h1, h2⟩ := h
    subst h2
    refine ⟨by simp [distLoop_length], rfl, fun hg => ?_⟩
    exact List.chain_iff_pairwise.1 (distLoop_chain geod hg ps p 0)

/-- Witness for C3 on the sample track. -/
theorem calculate_distance_shape_witness :
    ([0, 6/5, (12 : ℚ)/5] : List ℚ).length = samplePts.length ∧
    ([0, 6/5, (12 : ℚ)/5] : List ℚ).head? = some 0 ∧
    List.Pairwise (· ≤ ·) ([0, 6/5, (12 : ℚ)/5] : List ℚ) := by
  obtain ⟨h1, h2, h3⟩ :=
    calculate_distance_shape sampleGeod samplePts (12/5) [0, 6/5, 12/5]
      (by norm_num [calculate_distance, distLoop, samplePts, sampleGeod])
  exact ⟨h1, h2, h3 (fun a b => by norm_num [sampleGeod])⟩

/-- C9: `calculate_distance` fails with the empty-track error exactly on an
empty input, and `generate_waypoints` fails with the empty-track error when
the first track's first segment has zero points. -/
theorem empty_track_errors (geod : Point → Point → ℚ) (pts : List Point)
    (gpx : GPX) (pfx : String) (tr : Track) (rest : List Track)
    (seg : Segment) (srest : List Segment) :
    (calculate_distance geod pts = .error .emptyTrack ↔ pts = []) ∧
    (gpx.tracks = tr :: rest → tr.segments = seg :: srest →
      seg.points = [] →
      (generate_waypoints geod gpx pfx).1 = .error .emptyTrack) := by
  constructor
  · cases pts with
    | nil => simp [calculate_distance]
    | cons p ps => simp [calculate_distance]
  · intro h1 h2 h3
    rcases gpx with ⟨tracks⟩
    have h1' : tracks = tr :: rest := h1
    subst h1'
    rw [generate_waypoints_empty_case geod tr rest seg srest pfx h2 h3]

/-- Witness for C9: empty point list and a document with an empty segment. -/
theorem empty_track_errors_witness :
    (calculate_distance sampleGeod [] = .error .emptyTrack ↔
      ([] : List Point) = []) ∧
    (generate_waypoints sampleGeod ⟨[⟨some "old", none, [⟨[]⟩]⟩]⟩ "X").1 =
      .error .emptyTrack := by
  have h := empty_track_errors sampleGeod [] ⟨[⟨some "old", none, [⟨[]⟩]⟩]⟩
    "X" ⟨some "old", none, [⟨[]⟩]⟩ [] ⟨[]⟩ []
  exact ⟨h.1, h.2 rfl rfl rfl⟩

/-- C10: on a document whose first track's first segment has zero points,
`generate_waypoints` raises the empty-track error only after overwriting
the first track's display name with the prefix, so the document is not
left unchanged whenever its name differed from the prefix. -/
theorem generate_waypoints_renames_before_empty_check
    (geod : Point → Point → ℚ) (gpx : GPX) (pfx : String) (tr : Track)
    (rest : List Track) (seg : Segment) (srest : List Segment)
    (h1 : gpx.tracks = tr :: rest) (h2 : tr.segments = seg :: srest)
    (h3 : seg.points = []) :
    generate_waypoints geod gpx pfx =
      (.error .emptyTrack, ⟨{ tr with name := some pfx } :: rest⟩) ∧
    (tr.name ≠ some pfx → (generate_waypoints geod gpx pfx).2 ≠ gpx) := by
  rcases gpx with ⟨tracks⟩
  have h1' : tracks = tr :: rest := h1
  subst h1'
  have heq := generate_waypoints_empty_case geod tr rest seg srest pfx h2 h3
  refine ⟨heq, fun hname hcontra => ?_⟩
  rw [heq] at hcontra
  have h4 : (⟨{ tr with name := some pfx } :: rest⟩ : GPX) = ⟨tr :: rest⟩ :=
    hcontra
  have h5 := congrArg (fun g : GPX => g.tracks) h4
  simp only at h5
  have h6 : ({ tr with name := some pfx } : Track) = tr := (List.cons_eq_cons.1 h5).1
  exact hname (congrArg Track.name h6).symm

/-- Witness for C10: the error path rewrites the track name "old" to "X". -/
theorem generate_waypoints_renames_before_empty_check_witness :
    generate_waypoints sampleGeod ⟨[⟨some "old", none, [⟨[]⟩]⟩]⟩ "X" =
      (.error .emptyTrack, ⟨[⟨some "X", none, [⟨[]⟩]⟩]⟩) ∧
    (generate_waypoints sampleGeod ⟨[⟨some "old", none, [⟨[]⟩]⟩]⟩ "X").2 ≠
      ⟨[⟨some "old", none, [⟨[]⟩]⟩]⟩ := by
  have h := generate_waypoints_renames_before_empty_check sampleGeod
    ⟨[⟨some "old", none, [⟨[]⟩]⟩]⟩ "X" ⟨some "old", none, [⟨[]⟩]⟩ [] ⟨[]⟩ []
    rfl rfl rfl
  exact ⟨h.1, h.2 (by decide)⟩

/-! ### Lemmas about the linear scans -/

lemma scanFirst_eq_none_iff (p : ℚ → Bool) (l : List ℚ) :
    scanFirst p l = none ↔ ∀ d ∈ l, p d = false := by
  induction l with
  | nil => simp [scanFirst]
  | cons d rest ih =>
    by_cases hp : p d
    · simp [scanFirst, hp]
    · simp only [scanFirst, Bool.not_eq_true] at hp ⊢
      simp [hp, Option.map_eq_none', ih]

lemma scanFirst_eq_some_iff (p : ℚ → Bool) :
    ∀ (l : List ℚ) (i : ℕ),
      scanFirst p l = some i ↔
        ∃ d, l[i]? = some d ∧ p d = true ∧
          ∀ j e, j < i → l[j]? = some e → p e = false := by
  intro l
  induction l with
  | nil => intro i; simp [scanFirst]
  | cons d rest ih =>
    intro i
    by_cases hp : p d
    · simp only [scanFirst, hp, if_true]
      constructor
      · intro h
        obtain rfl : i = 0 := by
          cases h; rfl
        exact ⟨d, by simp, hp, fun j e hj => absurd hj (Nat.not_lt_zero j)⟩
      · rintro ⟨e, he, hpe, hall⟩
        cases i with
        | zero => rfl
        | succ k =>
          have hd : (d :: rest)[0]? = some d := by simp
          have := hall 0 d (Nat.succ_pos k) hd
          rw [hp] at this
          cases this
    · have hp' : p d = false := by simpa using hp
      simp only [scanFirst, hp', Bool.false_eq_true, if_false]
      constructor
      · intro h
        obtain ⟨i', hi', rfl⟩ : ∃ i', scanFirst p rest = some i' ∧ i' + 1 = i := by
          cases hs : scanFirst p rest with
          | none => rw [hs] at h; cases h
          | some k =>
            rw [hs] at h
            exact ⟨k, rfl, by simpa using h⟩
        obtain ⟨e, he, hpe, hall⟩ := (ih i').1 hi'
        refine ⟨e, by simpa using he, hpe, ?_⟩
        intro j f hj hjf
        cases j with
        | zero =>
          have hfd : d = f := by simpa using hjf
          rw [← hfd]; exact hp'
        | succ j' => exact hall j' f (by omega) (by simpa using hjf)
      · rintro ⟨e, he, hpe, hall⟩
        cases i with
        | zero =>
          have hde : d = e := by simpa using he
          rw [← hde] at hpe
          rw [hpe] at hp'
          cases hp'
        | succ k =>
          have hk : scanFirst p rest = some k := (ih k).2
            ⟨e, by simpa using he, hpe,
              fun j f hj hjf => hall (j + 1) f (by omega) (by simpa using hjf)⟩
          rw [hk]; rfl

lemma getElem?_some_lt {α : Type} (l : List α) (i : ℕ) (a : α)
    (h : l[i]? = some a) : i < l.length := by
  by_contra hc
  rw [List.getElem?_eq_none (by omega)] at h
  cases h

/-- C7: for a non-empty point sequence with an index-aligned cumulative
distance sequence, `find_halfway_point` returns the first point whose
cumulative distance reaches half the total, and when no entry reaches it,
returns the last point as a fallback; it never fails in either case. -/
theorem find_halfway_point_spec (pts : List Point) (ds : List ℚ) (total : ℚ)
    (hne : pts ≠ []) (hlen : ds.length = pts.length) :
    ∃ q, find_halfway_point pts ds total = .ok q ∧
      ((∃ (i : ℕ) (d : ℚ), ds[i]? = some d ∧ total / 2 ≤ d ∧
          pts[i]? = some q ∧
          (∀ (j : ℕ) (e : ℚ), j < i → ds[j]? = some e → e < total / 2)) ∨
        ((∀ d ∈ ds, d < total / 2) ∧ pts.getLast? = some q)) := by
  cases hs : scanFirst (fun d => decide (total / 2 ≤ d)) ds with
  | some i =>
    obtain ⟨d, hd, hpd, hall⟩ := (scanFirst_eq_some_iff _ ds i).1 hs
    have hi : i < pts.length := hlen ▸ getElem?_some_lt ds i d hd
    have hq : pts[i]? = some pts[i] := List.getElem?_eq_getElem hi
    refine ⟨pts[i], ?_, Or.inl ⟨i, d, hd, of_decide_eq_true hpd, hq, ?_⟩⟩
    · simp [find_halfway_point, hne, hs, hq]
    · intro j e hj hje
      have := hall j e hj hje
      simpa using of_decide_eq_false this
  | none =>
    refine ⟨pts.getLast hne, ?_, Or.inr ⟨?_, ?_⟩⟩
    · simp [find_halfway_point, hne, hs]
    · intro d hd
      have := (scanFirst_eq_none_iff _ ds).1 hs d hd
      simpa using of_decide_eq_false this
    · exact (List.getLast?_eq_getLast pts hne).symm ▸ rfl

/-- Witness for C7 on the sample track: the halfway point is the middle
point, reached at cumulative distance 6/5 of a 12/5 km track. -/
theorem find_halfway_point_spec_witness :
    ∃ q, find_halfway_point samplePts [0, 6/5, (12 : ℚ)/5] (12/5) = .ok q ∧
      ((∃ (i : ℕ) (d : ℚ), ([0, 6/5, (12 : ℚ)/5] : List ℚ)[i]? = some d ∧
          (12 : ℚ)/5 / 2 ≤ d ∧ samplePts[i]? = some q ∧
          (∀ (j : ℕ) (e : ℚ), j < i →
            ([0, 6/5, (12 : ℚ)/5] : List ℚ)[j]? = some e →
            e < (12 : ℚ)/5 / 2)) ∨
        ((∀ d ∈ ([0, 6/5, (12 : ℚ)/5] : List ℚ), d < (12 : ℚ)/5 / 2) ∧
          samplePts.getLast? = some q)) :=
  find_halfway_point_spec samplePts [0, 6/5, 12/5] (12/5)
    (by simp [samplePts]) (by simp [samplePts])

/-! ### Ascent and descent over pairs with missing elevations -/

lemma filter_map_sum_eq (l : List (Point × Point)) (p : Point × Point → Bool)
    (f g : Point × Point → ℚ)
    (hg : ∀ x, g x = if p x then f x else 0) :
    ((l.filter p).map f).sum = (l.map g).sum := by
  induction l with
  | nil => rfl
  | cons x xs ih =>
    by_cases hx : p x
    · simp [List.filter_cons, hx, hg x, ih]
    · simp [List.filter_cons, hx, hg x, ih]

/-- Per-pair ascent contribution: the positive elevation gain when both
elevations are present, and exactly 0 otherwise. -/
def ascContrib (pq : Point × Point) : ℚ :=
  match pq.1.elevation, pq.2.elevation with
  | some a, some b => max 0 (b - a)
  | _, _ => 0

/-- Per-pair descent contribution: the positive elevation drop when both
elevations are present, and exactly 0 otherwise. -/
def descContrib (pq : Point × Point) : ℚ :=
  match pq.1.elevation, pq.2.elevation with
  | some a, some b => max 0 (a - b)
  | _, _ => 0

/-- C5: the ascent and descent totals sum only over consecutive pairs
where both elevations are present; every pair with a missing elevation
contributes exactly 0 to both totals. -/
theorem ascent_descent_missing_elevation (pts : List Point) :
    ascent pts = ((consecPairs pts).map ascContrib).sum ∧
    descent pts = ((consecPairs pts).map descContrib).sum ∧
    (∀ p q : Point, p.elevation = none ∨ q.elevation = none →
      ascContrib (p, q) = 0 ∧ descContrib (p, q) = 0) := by
  refine ⟨?_, ?_, ?_⟩
  · apply filter_map_sum_eq
    rintro ⟨p, q⟩
    rcases hp : p.elevation with _ | a <;> rcases hq : q.elevation with _ | b <;>
      simp [ascContrib, hp, hq]
  · apply filter_map_sum_eq
    rintro ⟨p, q⟩
    rcases hp : p.elevation with _ | a <;> rcases hq : q.elevation with _ | b <;>
      simp [descContrib, hp, hq]
  · rintro p q (h | h) <;>
      rcases hp : p.elevation with _ | a <;> rcases hq : q.elevation with _ | b <;>
      simp_all [ascContrib, descContrib]

/-- Sample track with a missing middle elevation. -/
def gapPts : List Point := [⟨0, 0, some 0⟩, ⟨0, 1, none⟩, ⟨0, 2, some 5⟩]

/-- Witness for C5 on a track with a missing elevation: both pairs touch
the gap, so ascent and descent are zero-extended sums and the gap pair
contributes nothing. -/
theorem ascent_descent_missing_elevation_witness :
    ascent gapPts = ((consecPairs gapPts).map ascContrib).sum ∧
    ascContrib (⟨0, 1, none⟩, ⟨0, 2, some 5⟩) = 0 ∧
    descContrib (⟨0, 1, none⟩, ⟨0, 2, some 5⟩) = 0 := by
  have h := ascent_descent_missing_elevation gapPts
  exact ⟨h.1, (h.2.2 ⟨0, 1, none⟩ ⟨0, 2, some 5⟩ (Or.inl rfl)).1,
    (h.2.2 ⟨0, 1, none⟩ ⟨0, 2, some 5⟩ (Or.inl rfl)).2⟩

/-! ### First-occurrence max and min of the extreme-point finder -/

lemma pyMaxBy_mem (f : Point → ℚ) :
    ∀ (xs : List Point) (x : Point), pyMaxBy f x xs ∈ x :: xs := by
  intro xs
  induction xs with
  | nil => intro x; simp [pyMaxBy]
  | cons y ys ih =>
    intro x
    simp only [pyMaxBy]
    rcases List.mem_cons.1 (ih (if f x < f y then y else x)) with h | h
    · by_cases hxy : f x < f y
      · simp only [if_pos hxy] at h ⊢; simp [h]
      · simp only [if_neg hxy] at h ⊢; simp [h]
    · simp [List.mem_cons_of_mem, h]

lemma pyMaxBy_le (f : Point → ℚ) :
    ∀ (xs : List Point) (x y : Point), y ∈ x :: xs →
      f y ≤ f (pyMaxBy f x xs) := by
  intro xs
  induction xs with
  | nil =>
    intro x y hy
    simp only [List.mem_singleton] at hy
    subst hy; simp [pyMaxBy]
  | cons z zs ih =>
    intro x y hy
    simp only [pyMaxBy]
    have hx : f x ≤ f (if f x < f z then z else x) := by
      by_cases h : f x < f z
      · rw [if_pos h]; linarith
      · rw [if_neg h]
    have hz : f z ≤ f (if f x < f z then z else x) := by
      by_cases h : f x < f z
      · rw [if_pos h]
      · rw [if_neg h]; linarith [le_of_not_lt h]
    have hhead := ih (if f x < f z then z else x) (if f x < f z then z else x)
      (List.mem_cons_self _ _)
    simp only [List.mem_cons] at hy
    rcases hy with rfl | rfl | hmem
    · exact le_trans hx hhead
    · exact le_trans hz hhead
    · exact ih _ y (List.mem_cons_of_mem _ hmem)

lemma pyMaxBy_first (f : Point → ℚ) :
    ∀ (xs : List Point) (x : Point),
      (x :: xs).find? (fun p => decide (f (pyMaxBy f x xs) ≤ f p)) =
        some (pyMaxBy f x xs) := by
  intro xs
  induction xs with
  | nil =>
    intro x
    simp [pyMaxBy]
  | cons y ys ih =>
    intro x
    simp only [pyMaxBy]
    by_cases h : f x < f y
    · simp only [if_pos h]
      have hr : f y ≤ f (pyMaxBy f y ys) :=
        pyMaxBy_le f ys y y (List.mem_cons_self _ _)
      have hx : ¬ (f (pyMaxBy f y ys) ≤ f x) := by linarith
      rw [List.find?_cons_of_neg _ (by simpa using hx)]
      exact ih y
    · simp only [if_neg h]
      have hyx : f y ≤ f x := le_of_not_lt h
      by_cases hpx : f (pyMaxBy f x ys) ≤ f x
      · have h1 := ih x
        rw [List.find?_cons_of_pos _ (by simpa using hpx)] at h1
        rw [List.find?_cons_of_pos _ (by simpa using hpx)]
        exact h1
      · have h1 := ih x
        rw [List.find?_cons_of_neg _ (by simpa using hpx)] at h1
        have hpy : ¬ (f (pyMaxBy f x ys) ≤ f y) := by
          have : f x < f (pyMaxBy f x ys) := lt_of_not_le hpx
          linarith
        rw [List.find?_cons_of_neg _ (by simpa using hpx),
          List.find?_cons_of_neg _ (by simpa using hpy)]
        exact h1

lemma pyMinBy_mem (f : Point → ℚ) :
    ∀ (xs : List Point) (x : Point), pyMinBy f x xs ∈ x :: xs := by
  intro xs
  induction xs with
  | nil => intro x; simp [pyMinBy]
  | cons y ys ih =>
    intro x
    simp only [pyMinBy]
    rcases List.mem_cons.1 (ih (if f y < f x then y else x)) with h | h
    · by_cases hxy : f y < f x
      · simp only [if_pos hxy] at h ⊢; simp [h]
      · simp only [if_neg hxy] at h ⊢; simp [h]
    · simp [List.mem_cons_of_mem, h]

lemma pyMinBy_le (f : Point → ℚ) :
    ∀ (xs : List Point) (x y : Point), y ∈ x :: xs →
      f (pyMinBy f x xs) ≤ f y := by
  intro xs
  induction xs with
  | nil =>
    intro x y hy
    simp only [List.mem_singleton] at hy
    subst hy; simp [pyMinBy]
  | cons z zs ih =>
    intro x y hy
    simp only [pyMinBy]
    have hx : f (if f z < f x then z else x) ≤ f x := by
      by_cases h : f z < f x
      · rw [if_pos h]; linarith
      · rw [if_neg h]
    have hz : f (if f z < f x then z else x) ≤ f z := by
      by_cases h : f z < f x
      · rw [if_pos h]
      · rw [if_neg h]; linarith [le_of_not_lt h]
    have hhead := ih (if f z < f x then z else x) (if f z < f x then z else x)
      (List.mem_cons_self _ _)
    simp only [List.mem_cons] at hy
    rcases hy with rfl | rfl | hmem
    · exact le_trans hhead hx
    · exact le_trans hhead hz
    · exact ih _ y (List.mem_cons_of_mem _ hmem)

lemma pyMinBy_first (f : Point → ℚ) :
    ∀ (xs : List Point) (x : Point),
      (x :: xs).find? (fun p => decide (f p ≤ f (pyMinBy f x xs))) =
        some (pyMinBy f x xs) := by
  intro xs
  induction xs with
  | nil =>
    intro x
    simp [pyMinBy]
  | cons y ys ih =>
    intro x
    simp only [pyMinBy]
    by_cases h : f y < f x
    · simp only [if_pos h]
      have hr : f (pyMinBy f y ys) ≤ f y :=
        pyMinBy_le f ys y y (List.mem_cons_self _ _)
      have hx : ¬ (f x ≤ f (pyMinBy f y ys)) := by linarith
      rw [List.find?_cons_of_neg _ (by simpa using hx)]
      exact ih y
    · simp only [if_neg h]
      have hyx : f x ≤ f y := le_of_not_lt h
      by_cases hpx : f x ≤ f (pyMinBy f x ys)
      · have h1 := ih x
        rw [List.find?_cons_of_pos _ (by simpa using hpx)] at h1
        rw [List.find?_cons_of_pos _ (by simpa using hpx)]
        exact h1
      · have h1 := ih x
        rw [List.find?_cons_of_neg _ (by simpa using hpx)] at h1
        have hpy : ¬ (f y ≤ f (pyMinBy f x ys)) := by
          have : f (pyMinBy f x ys) < f x := lt_of_not_le hpx
          linarith
        rw [List.find?_cons_of_neg _ (by simpa using hpx),
          List.find?_cons_of_neg _ (by simpa using hpy)]
        exact h1

/-- C6: `find_extreme_points` fails with the no-elevation error exactly
when no point carries elevation; otherwise it returns the maximum- and
minimum-elevation points among the elevation-carrying points, each being
the first occurrence attaining its extreme in sequence order. -/
theorem find_extreme_points_spec (pts : List Point) :
    (pts.filter (fun p => p.elevation.isSome) = [] →
      find_extreme_points pts = .error .noElevationData) ∧
    (∀ v vs, pts.filter (fun p => p.elevation.isSome) = v :: vs →
      ∃ hi lo, find_extreme_points pts = .ok (hi, lo) ∧
        hi.elevation.isSome ∧ lo.elevation.isSome ∧
        (∀ p ∈ v :: vs, elevD p ≤ elevD hi) ∧
        (v :: vs).find? (fun p => decide (elevD hi ≤ elevD p)) = some hi ∧
        (∀ p ∈ v :: vs, elevD lo ≤ elevD p) ∧
        (v :: vs).find? (fun p => decide (elevD p ≤ elevD lo)) = some lo) := by
  constructor
  · intro h
    simp [find_extreme_points, h]
  · intro v vs h
    refine ⟨pyMaxBy elevD v vs, pyMinBy elevD v vs, ?_, ?_, ?_, ?_, ?_, ?_, ?_⟩
    · simp [find_extreme_points, h]
    · have hmem := pyMaxBy_mem elevD vs v
      rw [← h] at hmem
      exact (List.mem_filter.1 hmem).2
    · have hmem := pyMinBy_mem elevD vs v
      rw [← h] at hmem
      exact (List.mem_filter.1 hmem).2
    · exact fun p hp => pyMaxBy_le elevD vs v p hp
    · exact pyMaxBy_first elevD vs v
    · exact fun p hp => pyMinBy_le elevD vs v p hp
    · exact pyMinBy_first elevD vs v

/-- Witness for C6 on the sample track: the highest point is the middle
one (elevation 10), the lowest is the first (elevation 0). -/
theorem find_extreme_points_spec_witness :
    ∃ hi lo, find_extreme_points samplePts = .ok (hi, lo) ∧
      hi.elevation.isSome ∧ lo.elevation.isSome ∧
      (∀ p ∈ samplePts, elevD p ≤ elevD hi) ∧
      samplePts.find? (fun p => decide (elevD hi ≤ elevD p)) = some hi ∧
      (∀ p ∈ samplePts, elevD lo ≤ elevD p) ∧
      samplePts.find? (fun p => decide (elevD p ≤ elevD lo)) = some lo := by
  have h := (find_extreme_points_spec samplePts).2 ⟨0, 0, some 0⟩
    [⟨0, 1, some 10⟩, ⟨0, 2, some 5⟩] (by decide)
  simpa [samplePts] using h

/-! ### Decimal labels: injectivity and disjointness -/

lemma digitChar_lt_inj :
    ∀ d < 10, ∀ e < 10, digitChar d = digitChar e → d = e := by decide

lemma map_digitChar_inj :
    ∀ (l1 l2 : List ℕ), (∀ x ∈ l1, x < 10) → (∀ x ∈ l2, x < 10) →
      l1.map digitChar = l2.map digitChar → l1 = l2 := by
  intro l1
  induction l1 with
  | nil =>
    intro l2 _ _ h
    cases l2 with
    | nil => rfl
    | cons y ys => simp at h
  | cons x xs ih =>
    intro l2 h1 h2 h
    cases l2 with
    | nil => simp at h
    | cons y ys =>
      simp only [List.map_cons, List.cons_eq_cons] at h
      have hx : x = y := digitChar_lt_inj x (h1 x (by simp)) y
        (h2 y (by simp)) h.1
      have hxs : xs = ys := ih ys (fun a ha => h1 a (by simp [ha]))
        (fun a ha => h2 a (by simp [ha])) h.2
      rw [hx, hxs]

lemma natDecimal_inj : Function.Injective natDecimal := by
  intro m n h
  by_cases hm : m = 0 <;> by_cases hn : n = 0
  · rw [hm, hn]
  · exfalso
    rw [natDecimal, natDecimal, if_pos hm, if_neg hn] at h
    have hlen := congrArg List.length h
    simp at hlen
    obtain ⟨d, hd⟩ : ∃ d, Nat.digits 10 n = [d] := by
      cases hds : Nat.digits 10 n with
      | nil => rw [hds] at hlen; simp at hlen
      | cons a l =>
        cases l with
        | nil => exact ⟨a, rfl⟩
        | cons b l2 => rw [hds] at hlen; simp at hlen
    rw [hd] at h
    simp only [List.reverse_singleton, List.map_cons, List.map_nil] at h
    have hd10 : d < 10 := Nat.digits_lt_base (by norm_num)
      (show d ∈ Nat.digits 10 n by rw [hd]; simp)
    have hd0 : d = 0 := digitChar_lt_inj d hd10 0 (by norm_num)
      (by rw [← List.cons_eq_cons.1 h |>.1]; rfl)
    have : n = 0 := by
      have := Nat.ofDigits_digits 10 n
      rw [hd, hd0] at this
      simpa [Nat.ofDigits] using this.symm
    exact hn this
  · exfalso
    rw [natDecimal, natDecimal, if_neg hm, if_pos hn] at h
    have hlen := congrArg List.length h
    simp at hlen
    obtain ⟨d, hd⟩ : ∃ d, Nat.digits 10 m = [d] := by
      cases hds : Nat.digits 10 m with
      | nil => rw [hds] at hlen; simp at hlen
      | cons a l =>
        cases l with
        | nil => exact ⟨a, rfl⟩
        | cons b l2 => rw [hds] at hlen; simp at hlen
    rw [hd] at h
    simp only [List.reverse_singleton, List.map_cons, List.map_nil] at h
    have hd10 : d < 10 := Nat.digits_lt_base (by norm_num)
      (show d ∈ Nat.digits 10 m by rw [hd]; simp)
    have hd0 : d = 0 := digitChar_lt_inj d hd10 0 (by norm_num)
      (by rw [List.cons_eq_cons.1 h |>.1]; rfl)
    have : m = 0 := by
      have := Nat.ofDigits_digits 10 m
      rw [hd, hd0] at this
      simpa [Nat.ofDigits] using this.symm
    exact hm this
  · rw [natDecimal, natDecimal, if_neg hm, if_neg hn] at h
    have h2 : (Nat.digits 10 m).reverse = (Nat.digits 10 n).reverse :=
      map_digitChar_inj _ _
        (fun x hx => Nat.digits_lt_base (by norm_num) (List.mem_reverse.1 hx))
        (fun x hx => Nat.digits_lt_base (by norm_num) (List.mem_reverse.1 hx)) h
    have h3 : Nat.digits 10 m = Nat.digits 10 n :=
      List.reverse_injective h2
    exact Nat.digits_inj_iff.1 h3

lemma natRepr_inj : Function.Injective natRepr := by
  intro m n h
  exact natDecimal_inj (congrArg String.data h)

lemma string_data_ext (s t : String) (h : s.data = t.data) : s = t := by
  cases s with
  | mk d1 =>
    cases t with
    | mk d2 =>
      have h2 : d1 = d2 := h
      rw [h2]

lemma string_append_left_cancel (s t u : String) (h : s ++ t = s ++ u) :
    t = u := by
  apply string_data_ext
  have h2 := congrArg String.data h
  simp only [String.data_append] at h2
  exact List.append_cancel_left h2

lemma kmLabel_eq_append (pfx : String) (k : ℕ) :
    kmLabel pfx k = pfx ++ ("_KM" ++ natRepr k) := by
  apply string_data_ext
  simp [kmLabel, String.data_append, List.append_assoc]

lemma kmSuffix_data (k : ℕ) :
    ("_KM" ++ natRepr k).data = '_' :: 'K' :: 'M' :: natDecimal k := rfl

lemma kmSuffix_ne_of_second (k : ℕ) (s : String) (c2 : Char)
    (rest : List Char) (hs : s.data = '_' :: c2 :: rest) (hc : c2 ≠ 'K') :
    "_KM" ++ natRepr k ≠ s := by
  intro h
  have h2 := congrArg String.data h
  rw [kmSuffix_data, hs] at h2
  injection h2 with _ h3
  injection h3 with h4 _
  exact hc h4.symm

lemma kmSuffix_inj (j k : ℕ) (h : "_KM" ++ natRepr j = "_KM" ++ natRepr k) :
    j = k :=
  natRepr_inj (string_append_left_cancel _ _ _ h)

/-! ### Kilometer markers: the millimeter-scale loop bound and fullness -/

lemma getLast?_mem {α : Type} : ∀ (l : List α) (a : α),
    l.getLast? = some a → a ∈ l
  | [], _, h => by cases h
  | [x], a, h => by
    have : x = a := by simpa using h
    rw [← this]; simp
  | x :: y :: ys, a, h => by
    rw [List.getLast?_cons_cons] at h
    exact List.mem_cons_of_mem x (getLast?_mem (y :: ys) a h)

lemma distLoop_fst_ge (geod : Point → Point → ℚ)
    (hg : ∀ a b, 0 ≤ geod a b) :
    ∀ (ps : List Point) (prev : Point) (t : ℚ),
      t ≤ (distLoop geod prev t ps).1
  | [], _, _ => le_refl _
  | p :: ps, prev, t => by
    simp only [distLoop]
    have h1 := distLoop_fst_ge geod hg ps p (t + geod prev p / 1000)
    have h2 := hg prev p
    linarith

lemma cdLast (geod : Point → Point → ℚ) (pts : List Point) (total : ℚ)
    (ds : List ℚ) (h : calculate_distance geod pts = .ok (total, ds)) :
    ds.getLast? = some total := by
  cases pts with
  | nil => simp [calculate_distance] at h
  | cons p ps =>
    simp only [calculate_distance, Except.ok.injEq, Prod.mk.injEq] at h
    obtain ⟨h1, h2⟩ := h
    rw [← h1, ← h2, getLast?_cons_getLastD, distLoop_getLastD]

lemma cdLen (geod : Point → Point → ℚ) (pts : List Point) (total : ℚ)
    (ds : List ℚ) (h : calculate_distance geod pts = .ok (total, ds)) :
    ds.length = pts.length := by
  cases pts with
  | nil => simp [calculate_distance] at h
  | cons p ps =>
    simp only [calculate_distance, Except.ok.injEq, Prod.mk.injEq] at h
    rw [← h.2]
    simp [distLoop_length]

lemma cdNonneg (geod : Point → Point → ℚ) (hg : ∀ a b, 0 ≤ geod a b)
    (pts : List Point) (total : ℚ) (ds : List ℚ)
    (h : calculate_distance geod pts = .ok (total, ds)) : 0 ≤ total := by
  cases pts with
  | nil => simp [calculate_distance] at h
  | cons p ps =>
    simp only [calculate_distance, Except.ok.injEq, Prod.mk.injEq] at h
    rw [← h.1]
    exact distLoop_fst_ge geod hg ps p 0

lemma kmCount_le_total (total : ℚ) (k : ℕ) (hk1 : 1 ≤ k)
    (hk2 : k ≤ kmCount total) : (k : ℚ) ≤ total := by
  unfold kmCount at hk2
  have h1000 : 1000 * k ≤ (pyInt (total * 1000)).toNat := by
    have := (Nat.le_div_iff_mul_le (by norm_num : 0 < 1000)).1 hk2
    omega
  have hq : 0 ≤ total * 1000 := by
    by_contra hneg
    push_neg at hneg
    have hNle : pyInt (total * 1000) ≤ 0 := by
      rw [pyInt, if_pos hneg]
      have : (0 : ℤ) ≤ ⌊-(total * 1000)⌋ := Int.floor_nonneg.2 (by linarith)
      omega
    omega
  have hNfloor : pyInt (total * 1000) = ⌊total * 1000⌋ := by
    rw [pyInt, if_neg (not_lt.2 hq)]
  have hZ : (1000 * k : ℤ) ≤ ⌊total * 1000⌋ := by
    rw [← hNfloor]; omega
  have h2 : ((1000 * k : ℤ) : ℚ) ≤ total * 1000 := Int.le_floor.1 hZ
  push_cast at h2
  linarith

lemma kmCount_eq_floor (total : ℚ) (h : 0 ≤ total) :
    kmCount total = ⌊total⌋₊ := by
  unfold kmCount pyInt
  rw [if_neg (not_lt.2 (by positivity : (0 : ℚ) ≤ total * 1000))]
  rw [Int.floor_toNat]
  have hdiv : (total * 1000) / ((1000 : ℕ) : ℚ) = total := by
    push_cast; ring
  calc ⌊total * 1000⌋₊ / 1000
      = ⌊(total * 1000) / ((1000 : ℕ) : ℚ)⌋₊ := (Nat.floor_div_nat _ _).symm
    _ = ⌊total⌋₊ := by rw [hdiv]

lemma scanFirst_some_of_mem (p : ℚ → Bool) (l : List ℚ) (d : ℚ)
    (hd : d ∈ l) (hp : p d = true) : ∃ i, scanFirst p l = some i := by
  cases hs : scanFirst p l with
  | some i => exact ⟨i, rfl⟩
  | none =>
    rw [(scanFirst_eq_none_iff p l).1 hs d hd] at hp
    cases hp

lemma kmMarker_body (pts : List Point) (ds : List ℚ) (total : ℚ)
    (hlen : ds.length = pts.length) (hlast : ds.getLast? = some total)
    (k : ℕ) (hk1 : 1 ≤ k) (hk2 : k ≤ kmCount total) :
    ∃ i p, scanFirst (fun d => decide ((k : ℚ) * 1000 ≤ d * 1000)) ds =
        some i ∧ pts[i]? = some p := by
  have hk := kmCount_le_total total k hk1 hk2
  have hmem := getLast?_mem ds total hlast
  have hptotal :
      (fun d => decide ((k : ℚ) * 1000 ≤ d * 1000)) total = true := by
    simp only [decide_eq_true_eq]
    nlinarith
  obtain ⟨i, hi⟩ := scanFirst_some_of_mem
    (fun d => decide ((k : ℚ) * 1000 ≤ d * 1000)) ds total hmem hptotal
  obtain ⟨d, hd, _, _⟩ := (scanFirst_eq_some_iff _ ds i).1 hi
  have hlt : i < pts.length := hlen ▸ getElem?_some_lt ds i d hd
  exact ⟨i, pts[i], hi, List.getElem?_eq_getElem hlt⟩

lemma filterMap_getElem?_full {α β : Type} (F : α → Option β) :
    ∀ (l : List α), (∀ a ∈ l, (F a).isSome) →
      ∀ j : ℕ, (l.filterMap F)[j]? = (l[j]?).bind F := by
  intro l
  induction l with
  | nil => intro _ j; simp
  | cons a l ih =>
    intro h j
    obtain ⟨b, hb⟩ := Option.isSome_iff_exists.1 (h a (by simp))
    rw [List.filterMap_cons_some hb]
    cases j with
    | zero => simp [hb]
    | succ j' =>
      simp only [List.getElem?_cons_succ]
      exact ih (fun x hx => h x (by simp [hx])) j'

lemma filterMap_map_fst_eq {α β γ : Type} (F : α → Option (γ × β))
    (G : α → γ) :
    ∀ (l : List α), (∀ a ∈ l, ∃ p, F a = some p ∧ p.1 = G a) →
      (l.filterMap F).map Prod.fst = l.map G := by
  intro l
  induction l with
  | nil => intro _; simp
  | cons a l ih =>
    intro h
    obtain ⟨p, hp, hfst⟩ := h a (by simp)
    rw [List.filterMap_cons_some hp]
    simp only [List.map_cons, hfst]
    rw [ih (fun x hx => h x (by simp [hx]))]

lemma kmMarkers_body_eq (pfx : String) (pts : List Point) (ds : List ℚ)
    (k i : ℕ) (p : Point)
    (hi : scanFirst (fun d => decide ((k : ℚ) * 1000 ≤ d * 1000)) ds = some i)
    (hp : pts[i]? = some p) :
    (match scanFirst (fun d => decide ((k : ℚ) * 1000 ≤ d * 1000)) ds with
      | some i => (pts[i]?).map (fun q => (kmLabel pfx k, q))
      | none => none) = some (kmLabel pfx k, p) := by
  rw [hi]
  show Option.map (fun q => (kmLabel pfx k, q)) pts[i]? =
    some (kmLabel pfx k, p)
  rw [hp]
  rfl

lemma kmMarkers_map_fst (pfx : String) (pts : List Point) (ds : List ℚ)
    (total : ℚ) (hlen : ds.length = pts.length)
    (hlast : ds.getLast? = some total) :
    (kmMarkers pfx pts ds total).map Prod.fst =
      (List.range' 1 (kmCount total)).map (kmLabel pfx) := by
  apply filterMap_map_fst_eq
  intro k hk
  have hk' := List.mem_range'_1.1 hk
  obtain ⟨i, p, hi, hp⟩ := kmMarker_body pts ds total hlen hlast k hk'.1
    (by omega)
  exact ⟨(kmLabel pfx k, p), kmMarkers_body_eq pfx pts ds k i p hi hp, rfl⟩

/-- C1: the kilometer-marker pass emits exactly one marker per integer
kilometer boundary from 1 up to the floor of the total distance inclusive
(the millimeter-scale loop bound makes an exact boundary hit count), each
labelled with the boundary number and bound to the first point whose
cumulative distance reaches the boundary. -/
theorem km_markers_per_boundary (geod : Point → Point → ℚ)
    (hg : ∀ a b, 0 ≤ geod a b) (pfx : String) (pts : List Point)
    (total : ℚ) (ds : List ℚ)
    (h : calculate_distance geod pts = .ok (total, ds)) :
    (kmMarkers pfx pts ds total).length = ⌊total⌋₊ ∧
    ∀ j : ℕ, j < ⌊total⌋₊ →
      ∃ (i : ℕ) (p : Point) (d : ℚ),
        (kmMarkers pfx pts ds total)[j]? = some (kmLabel pfx (j + 1), p) ∧
        pts[i]? = some p ∧ ds[i]? = some d ∧ ((j : ℚ) + 1) ≤ d ∧
        ∀ (i' : ℕ) (e : ℚ), i' < i → ds[i']? = some e →
          e < ((j : ℚ) + 1) := by
  have hlen := cdLen geod pts total ds h
  have hlast := cdLast geod pts total ds h
  have hnn := cdNonneg geod hg pts total ds h
  have hfloor := kmCount_eq_floor total hnn
  constructor
  · have hmap := congrArg List.length (kmMarkers_map_fst pfx pts ds total
      hlen hlast)
    simpa [hfloor] using hmap
  · intro j hj
    have hj' : j < kmCount total := by rw [hfloor]; exact hj
    obtain ⟨i, p, hi, hp⟩ := kmMarker_body pts ds total hlen hlast (j + 1)
      (by omega) (by omega)
    obtain ⟨d, hd, hpd, hall⟩ := (scanFirst_eq_some_iff _ ds i).1 hi
    refine ⟨i, p, d, ?_, hp, hd, ?_, ?_⟩
    · have hfull : ∀ a ∈ List.range' 1 (kmCount total),
          ((fun (k : ℕ) =>
            (match scanFirst (fun d => decide ((k : ℚ) * 1000 ≤ d * 1000))
                ds with
              | some i => (pts[i]?).map (fun q => (kmLabel pfx k, q))
              | none => none)) a).isSome := by
        intro a ha
        have ha' := List.mem_range'_1.1 ha
        obtain ⟨i', p', hi', hp'⟩ := kmMarker_body pts ds total hlen hlast a
          ha'.1 (by omega)
        show (match scanFirst
            (fun d => decide ((a : ℚ) * 1000 ≤ d * 1000)) ds with
          | some i => (pts[i]?).map (fun q => (kmLabel pfx a, q))
          | none => none).isSome
        rw [kmMarkers_body_eq pfx pts ds a i' p' hi' hp']
        rfl
      have hgj := filterMap_getElem?_full _ (List.range' 1 (kmCount total))
        hfull j
      have hkm : kmMarkers pfx pts ds total =
          (List.range' 1 (kmCount total)).filterMap (fun (k : ℕ) =>
            match scanFirst (fun d => decide ((k : ℚ) * 1000 ≤ d * 1000))
                ds with
              | some i => (pts[i]?).map (fun q => (kmLabel pfx k, q))
              | none => none) := rfl
      rw [hkm, hgj, List.getElem?_range' 1 1 hj']
      have h1j : 1 + 1 * j = j + 1 := by omega
      rw [h1j]
      exact kmMarkers_body_eq pfx pts ds (j + 1) i p hi hp
    · have h2 := of_decide_eq_true hpd
      push_cast at h2 ⊢
      linarith
    · intro i' e hi'lt hie
      have h3 := hall i' e hi'lt hie
      have h4 := of_decide_eq_false h3
      push_cast at h4 ⊢
      push_neg at h4
      linarith

/-- Witness for C1: the sample 2.4 km track has markers KM1 and KM2 only,
and they are bound to the first crossing points. -/
theorem km_markers_per_boundary_witness :
    (kmMarkers "RIDGE" samplePts [0, 6/5, (12 : ℚ)/5] (12/5)).length =
      ⌊(12 : ℚ)/5⌋₊ ∧
    ∀ j : ℕ, j < ⌊(12 : ℚ)/5⌋₊ →
      ∃ (i : ℕ) (p : Point) (d : ℚ),
        (kmMarkers "RIDGE" samplePts [0, 6/5, (12 : ℚ)/5] (12/5))[j]? =
          some (kmLabel "RIDGE" (j + 1), p) ∧
        samplePts[i]? = some p ∧
        ([0, 6/5, (12 : ℚ)/5] : List ℚ)[i]? = some d ∧
        ((j : ℚ) + 1) ≤ d ∧
        ∀ (i' : ℕ) (e : ℚ), i' < i →
          ([0, 6/5, (12 : ℚ)/5] : List ℚ)[i']? = some e →
          e < ((j : ℚ) + 1) :=
  km_markers_per_boundary sampleGeod
    (fun a b => by norm_num [sampleGeod]) "RIDGE" samplePts (12/5)
    [0, 6/5, 12/5]
    (by norm_num [calculate_distance, distLoop, samplePts, sampleGeod])

/-! ### Shape of a successful waypoint-generation run -/

lemma calculate_distance_ne_nil (geod : Point → Point → ℚ)
    (pts : List Point) (hne : pts ≠ []) :
    ∃ total ds, calculate_distance geod pts = .ok (total, ds) := by
  cases pts with
  | nil => exact absurd rfl hne
  | cons p ps => exact ⟨_, _, calculate_distance_ok geod p ps⟩

lemma generate_waypoints_ok_shape (geod : Point → Point → ℚ) (gpx : GPX)
    (pfx : String) (wps : List (String × Point)) (gout : GPX)
    (h : generate_waypoints geod gpx pfx = (.ok wps, gout)) :
    ∃ (pts : List Point) (total : ℚ) (ds : List ℚ)
      (hi lo half : Point) (hne : pts ≠ []),
      calculate_distance geod pts = .ok (total, ds) ∧
      wps = (pfx ++ "_TH", pts.head hne) ::
        (pfx ++ "_TE", pts.getLast hne) ::
        (kmMarkers pfx pts ds total ++
          [(pfx ++ "_HGH", hi), (pfx ++ "_LWT", lo),
           (pfx ++ "_HLF", half)]) := by
  rcases gpx with ⟨tracks⟩
  cases tracks with
  | nil => simp [generate_waypoints] at h
  | cons tr rest =>
    rcases htr : tr.segments with _ | ⟨seg, srest⟩
    · simp [generate_waypoints, htr] at h
    · by_cases hpts : seg.points = []
      · simp [generate_waypoints, htr, hpts] at h
      · obtain ⟨total, ds, hcd⟩ :=
          calculate_distance_ne_nil geod seg.points hpts
        cases hfe : find_extreme_points seg.points with
        | error e => simp [generate_waypoints, htr, hpts, hcd, hfe] at h
        | ok hilo =>
          rcases hilo with ⟨hi, lo⟩
          cases hfh : find_halfway_point seg.points ds total with
          | error e =>
            simp [generate_waypoints, htr, hpts, hcd, hfe, hfh] at h
          | ok half =>
            cases hmin : optMin (seg.points.filterMap (fun p => p.elevation))
              with
            | none =>
              simp [generate_waypoints, htr, hpts, hcd, hfe, hfh, hmin] at h
            | some mn =>
              cases hmax :
                  optMax (seg.points.filterMap (fun p => p.elevation)) with
              | none =>
                simp [generate_waypoints, htr, hpts, hcd, hfe, hfh, hmin,
                  hmax] at h
              | some mx =>
                simp only [generate_waypoints, htr, hpts, hcd, hfe, hfh,
                  hmin, hmax] at h
                refine ⟨seg.points, total, ds, hi, lo, half, hpts, hcd, ?_⟩
                simp at h
                rw [← h.1]

lemma generate_waypoints_ok_labels (geod : Point → Point → ℚ) (gpx : GPX)
    (pfx : String) (wps : List (String × Point)) (gout : GPX)
    (h : generate_waypoints geod gpx pfx = (.ok wps, gout)) :
    ∃ n : ℕ, wps.map Prod.fst =
      [pfx ++ "_TH", pfx ++ "_TE"] ++
      (List.range' 1 n).map (kmLabel pfx) ++
      [pfx ++ "_HGH", pfx ++ "_LWT", pfx ++ "_HLF"] := by
  obtain ⟨pts, total, ds, hi, lo, half, hne, hcd, hwps⟩ :=
    generate_waypoints_ok_shape geod gpx pfx wps gout h
  refine ⟨kmCount total, ?_⟩
  subst hwps
  simp only [List.map_cons, List.map_append]
  rw [kmMarkers_map_fst pfx pts ds total (cdLen geod pts total ds hcd)
    (cdLast geod pts total ds hcd)]
  simp

/-- C4: on every successful run the waypoint labels come in the fixed
order trailhead, trail end, ascending kilometer markers, highest, lowest,
halfway — for every document and every geodesic collaborator. -/
theorem generate_waypoints_order (geod : Point → Point → ℚ) (gpx : GPX)
    (pfx : String) (wps : List (String × Point)) (gout : GPX)
    (h : generate_waypoints geod gpx pfx = (.ok wps, gout)) :
    ∃ n : ℕ, wps.map Prod.fst =
      [pfx ++ "_TH", pfx ++ "_TE"] ++
      (List.range' 1 n).map (kmLabel pfx) ++
      [pfx ++ "_HGH", pfx ++ "_LWT", pfx ++ "_HLF"] :=
  generate_waypoints_ok_labels geod gpx pfx wps gout h

lemma not_mem_kmSuffixes (s : String) (c2 : Char) (rest : List Char)
    (hs : s.data = '_' :: c2 :: rest) (hc : c2 ≠ 'K') (n : ℕ) :
    s ∉ (List.range' 1 n).map (fun k => "_KM" ++ natRepr k) := by
  intro hmem
  obtain ⟨k, _, hk⟩ := List.mem_map.1 hmem
  exact kmSuffix_ne_of_second k s c2 rest hs hc hk

lemma suffixes_nodup (n : ℕ) :
    ("_TH" :: "_TE" ::
      ((List.range' 1 n).map (fun k => "_KM" ++ natRepr k) ++
        ["_HGH", "_LWT", "_HLF"])).Nodup := by
  refine List.nodup_cons.2 ⟨?_, List.nodup_cons.2 ⟨?_, ?_⟩⟩
  · simp only [List.mem_cons, List.mem_append]
    push_neg
    exact ⟨by decide, not_mem_kmSuffixes "_TH" 'T' ['H'] rfl (by decide) n,
      by decide⟩
  · simp only [List.mem_append]
    push_neg
    exact ⟨not_mem_kmSuffixes "_TE" 'T' ['E'] rfl (by decide) n, by decide⟩
  · rw [List.nodup_append]
    refine ⟨?_, by decide, ?_⟩
    · exact (List.nodup_range' _ _ _ (by norm_num)).map
        (fun a b hab => kmSuffix_inj a b hab)
    · intro a haB haC
      obtain ⟨k, _, hk⟩ := List.mem_map.1 haB
      rw [← hk] at haC
      have haC' : "_KM" ++ natRepr k = "_HGH" ∨
          "_KM" ++ natRepr k = "_LWT" ∨
          "_KM" ++ natRepr k = "_HLF" := by simpa using haC
      rcases haC' with h1 | h1 | h1
      · exact kmSuffix_ne_of_second k "_HGH" 'H' ['G', 'H'] rfl
          (by decide) h1
      · exact kmSuffix_ne_of_second k "_LWT" 'L' ['W', 'T'] rfl
          (by decide) h1
      · exact kmSuffix_ne_of_second k "_HLF" 'H' ['L', 'F'] rfl
          (by decide) h1

lemma labels_as_map (pfx : String) (n : ℕ) :
    ([pfx ++ "_TH", pfx ++ "_TE"] ++
      (List.range' 1 n).map (kmLabel pfx) ++
      [pfx ++ "_HGH", pfx ++ "_LWT", pfx ++ "_HLF"]) =
    ("_TH" :: "_TE" ::
      ((List.range' 1 n).map (fun k => "_KM" ++ natRepr k) ++
        ["_HGH", "_LWT", "_HLF"])).map (fun sfx => pfx ++ sfx) := by
  simp only [List.map_cons, List.map_append, List.map_map,
    List.cons_append, List.nil_append]
  refine congrArg₂ List.cons rfl (congrArg₂ List.cons rfl
    (congrArg₂ (· ++ ·) ?_ rfl))
  apply List.map_congr_left
  intro k _
  exact kmLabel_eq_append pfx k

/-- C8: on every successful run with a fixed prefix, the generated
waypoint labels are pairwise distinct. -/
theorem generate_waypoints_labels_nodup (geod : Point → Point → ℚ)
    (gpx : GPX) (pfx : String) (wps : List (String × Point)) (gout : GPX)
    (h : generate_waypoints geod gpx pfx = (.ok wps, gout)) :
    (wps.map Prod.fst).Nodup := by
  obtain ⟨n, hmap⟩ := generate_waypoints_ok_labels geod gpx pfx wps gout h
  rw [hmap, labels_as_map]
  exact (suffixes_nodup n).map
    (fun a b hab => string_append_left_cancel pfx a b hab)

/-- Concrete evaluation of a successful run on a one-point track. -/
lemma generate_one_point_eval :
    generate_waypoints sampleGeod
        ⟨[⟨some "old", none, [⟨[⟨0, 0, some 0⟩]⟩]⟩]⟩ "R" =
      (.ok [("R" ++ "_TH", ⟨0, 0, some 0⟩), ("R" ++ "_TE", ⟨0, 0, some 0⟩),
        ("R" ++ "_HGH", ⟨0, 0, some 0⟩), ("R" ++ "_LWT", ⟨0, 0, some 0⟩),
        ("R" ++ "_HLF", ⟨0, 0, some 0⟩)],
       ⟨[⟨some "R", some ⟨0, 1, 0, 0, 0, 0⟩, [⟨[⟨0, 0, some 0⟩]⟩]⟩]⟩) := by
  have hcd : calculate_distance sampleGeod [⟨0, 0, some 0⟩] =
      .ok (0, [0]) := rfl
  have hkc : kmCount (0 : ℚ) = 0 := by
    unfold kmCount pyInt
    norm_num
  have hkm : kmMarkers "R" [⟨0, 0, some 0⟩] [0] 0 = [] := by
    unfold kmMarkers
    rw [hkc]
    rfl
  have hfh : find_halfway_point [⟨0, 0, some 0⟩] [0] 0 =
      .ok ⟨0, 0, some 0⟩ := by
    have h0 : ((0 : ℚ) / 2 ≤ 0) = True := by norm_num
    simp [find_halfway_point, scanFirst, h0]
  have hfe : find_extreme_points [⟨0, 0, some 0⟩] =
      .ok (⟨0, 0, some 0⟩, ⟨0, 0, some 0⟩) := rfl
  simp [generate_waypoints, hcd, hkm, hfh, hfe, optMin, optMax, ascent,
    descent, consecPairs]

/-- Witness for C4 on the one-point run: labels appear in contract order
(with no kilometer markers). -/
theorem generate_waypoints_order_witness :
    ∃ n : ℕ,
      (([("R" ++ "_TH", (⟨0, 0, some 0⟩ : Point)),
         ("R" ++ "_TE", ⟨0, 0, some 0⟩), ("R" ++ "_HGH", ⟨0, 0, some 0⟩),
         ("R" ++ "_LWT", ⟨0, 0, some 0⟩), ("R" ++ "_HLF", ⟨0, 0, some 0⟩)] :
        List (String × Point)).map Prod.fst) =
      ["R" ++ "_TH", "R" ++ "_TE"] ++
      (List.range' 1 n).map (kmLabel "R") ++
      ["R" ++ "_HGH", "R" ++ "_LWT", "R" ++ "_HLF"] :=
  generate_waypoints_order sampleGeod
    ⟨[⟨some "old", none, [⟨[⟨0, 0, some 0⟩]⟩]⟩]⟩ "R" _ _
    generate_one_point_eval

/-- Witness for C8 on the one-point run: the five labels are pairwise
distinct. -/
theorem generate_waypoints_labels_nodup_witness :
    (([("R" ++ "_TH", (⟨0, 0, some 0⟩ : Point)),
       ("R" ++ "_TE", ⟨0, 0, some 0⟩), ("R" ++ "_HGH", ⟨0, 0, some 0⟩),
       ("R" ++ "_LWT", ⟨0, 0, some 0⟩), ("R" ++ "_HLF", ⟨0, 0, some 0⟩)] :
      List (String × Point)).map Prod.fst).Nodup :=
  generate_waypoints_labels_nodup sampleGeod
    ⟨[⟨some "old", none, [⟨[⟨0, 0, some 0⟩]⟩]⟩]⟩ "R" _ _
    generate_one_point_eval
